import Mathlib

/-
Verification development for the wellwish mesh/burst engine.

Strings are embedded as lists of characters (`Str`).  Go map values default
to the empty string on a missing key, which is mirrored by `(lookupA m k).getD []`.
The templated-sentence collaborator (`englang`) is not part of the sources;
its `Printf` is modelled as literal concatenation and its `Scanf1` as
anchored pattern matching with first-occurrence splitting at each hole,
following the spec's description of the sentence templates.
-/

namespace WellWish

abbrev Str := List Char

/-- Does the pattern `p` start the string `s`?  (Go `strings.HasPrefix`.) -/
def strStarts : Str → Str → Bool
  | [], _ => true
  | _ :: _, [] => false
  | c :: p, d :: s => if c = d then strStarts p s else false

/-- Does the string `s` end with `suf`?  (Go `strings.HasSuffix`.) -/
def strEnds (suf s : Str) : Bool := strStarts suf.reverse s.reverse

/-- Split `s` at the first occurrence of `sep`:
`splitFirst sep s = some (a, b)` with `s = a ++ sep ++ b` and the occurrence
of `sep` at `a.length` being the leftmost one (Go `strings.Index`). -/
def splitFirst (sep : Str) : Str → Option (Str × Str)
  | [] => if strStarts sep [] then some ([], []) else none
  | c :: cs =>
    if strStarts sep (c :: cs) then some ([], List.drop sep.length (c :: cs))
    else (splitFirst sep cs).map fun p => (c :: p.1, p.2)

/-- Go `strings.Contains`. -/
def containsStr (s sub : Str) : Bool := (splitFirst sub s).isSome

/-- Go `strings.Replace(s, old, new, 1)`: replace the first occurrence only;
an empty `old` matches at the start of the string. -/
def replaceFirst (s old new : Str) : Str :=
  if old = [] then new ++ s
  else
    match splitFirst old s with
    | some (a, b) => a ++ new ++ b
    | none => s

/-- Strip a required suffix, keeping the front (used for the trailing
literal of a sentence pattern, which is anchored at the end). -/
def stripSuffix (suf s : Str) : Option Str :=
  if strEnds suf s then some (s.take (s.length - suf.length)) else none

/-- Modelled from the spec: `englang.Scanf1` with a single `%s` hole,
pattern `pre ++ %s ++ suf`; the hole is everything between the anchored
prefix and the anchored suffix. -/
def scanPattern1 (pre suf s : Str) : Option Str :=
  if strStarts pre s then stripSuffix suf (s.drop pre.length) else none

/-- Modelled from the spec: `englang.Scanf1` with two `%s` holes,
pattern `pre ++ %s ++ mid ++ %s ++ suf`; the first hole ends at the first
occurrence of `mid`, the second runs to the anchored suffix. -/
def scanPattern2 (pre mid suf s : Str) : Option (Str × Str) :=
  if strStarts pre s then
    match splitFirst mid (s.drop pre.length) with
    | some (a, rest) =>
      match stripSuffix suf rest with
      | some b => some (a, b)
      | none => none
    | none => none
  else none

/-- Association-list lookup, mirroring a Go map read (`m[k]`) that
distinguishes presence (`some v`) from absence (`none`). -/
def lookupA : List (Str × Str) → Str → Option Str
  | [], _ => none
  | (k, v) :: rest, key => if k = key then some v else lookupA rest key

/-- Association-list update, mirroring a Go map write `m[k] = v`. -/
def setA : List (Str × Str) → Str → Str → List (Str × Str)
  | [], key, v => [(key, v)]
  | (k, w) :: rest, key, v =>
    if k = key then (k, v) :: rest else (k, w) :: setA rest key v

/-! ## drawing/common.go -/

/-- The letter table of `GenerateUniqueKey` in drawing/common.go. -/
def lettersGo : Str := "ABCDEFGHIJKLMNOPQRST".toList

/-- One pass of the inner loop of `GenerateUniqueKey`: fill all 64 positions
from the random source.  `draw t` stands for the value
`Random()^math.Uint32()` consumed at global draw counter `t`; attempt `t`
consumes draws `64*t .. 64*t+63`. -/
def keyAttempt (draw : Nat → Nat) (t : Nat) : Str :=
  (List.range 64).map fun i => lettersGo.getD ((draw (64 * t + i)) % 20) 'A'

/-- The outer convergence loop of `GenerateUniqueKey`: run attempt 0, then
up to `t` further attempts, stopping early once `key[3] == 'A'`. -/
def keySearch (draw : Nat → Nat) : Nat → Str
  | 0 => keyAttempt draw 0
  | t + 1 =>
    let prev := keySearch draw t
    if prev.getD 3 'X' = 'A' then prev else keyAttempt draw (t + 1)

/-- drawing/common.go `GenerateUniqueKey`: up to 1000 attempts of the
convergence loop (attempts 0..999), then position 4 is unconditionally
overwritten with `'B'`. -/
def GenerateUniqueKey (draw : Nat → Nat) : Str :=
  (keySearch draw 999).set 4 'B'

/-! ## mesh (part_000): node registry, key index, proxy -/

/-- The tombstone value stored in `Nodes` for an evicted node. -/
def evictionNotice : Str := "This node got an eviction notice.".toList

/-- Modelled from the spec: `englang.Synonym` decides whether a sentence is
equivalent to another; for the fixed eviction-notice sentence this is
string equality. -/
def synonym (a b : Str) : Bool := a == b

/-- What the `Proxy` function did: the status code written (if any) and the
rewritten URL handed to the `management.HttpProxyRequest` collaborator
(if any). -/
structure ProxyOutcome where
  status : Option Nat
  forwarded : Option Str
deriving DecidableEq

/-- The scheme normalization step of `Proxy`: prepend the local site's
scheme to the owning server when it lacks one. -/
def schemeAdjust (siteUrl server : Str) : Str :=
  if strStarts "http://".toList siteUrl && !(strStarts "http://".toList server) then
    "http://".toList ++ server
  else if strStarts "https://".toList siteUrl && !(strStarts "https://".toList server) then
    "https://".toList ++ server
  else server

/-- mesh `Proxy` (part_000): `apiKey` is the `apikey` header (empty when
absent), `index` the key index, `nodes` the node registry, `url` the
request URL string.  `findServerOfApiKey` is the map read `Index[apiKey]`. -/
def Proxy (index nodes : List (Str × Str)) (siteUrl apiKey url : Str) : ProxyOutcome :=
  if apiKey = [] then ⟨some 404, none⟩
  else
    let server := (lookupA index apiKey).getD []
    if server = [] then ⟨some 404, none⟩
    else if synonym ((lookupA nodes server).getD []) evictionNotice then ⟨some 410, none⟩
    else
      let server2 := schemeAdjust siteUrl server
      let modified := replaceFirst url siteUrl server2
      if modified = url then ⟨some 404, none⟩
      else ⟨none, some modified⟩

/-- The scanner loop of `UpdateIndex`: fold the parsed lines into a fresh
map, skipping lines the sentence parser rejects.  `parse` stands for
`englang.Scanf(line, MeshPattern, &apikey, &server)`. -/
def updateIndexLoop (parse : Str → Option (Str × Str)) :
    List (Str × Str) → List Str → List (Str × Str)
  | index, [] => index
  | index, line :: rest =>
    match parse line with
    | some (k, s) => updateIndexLoop parse (setA index k s) rest
    | none => updateIndexLoop parse index rest

/-- mesh `UpdateIndex` (part_000): build a fresh index from the incoming
lines and replace the stored index with it; the previous index
(`oldIndex`) is discarded. -/
def UpdateIndex (parse : Str → Option (Str × Str)) (oldIndex : List (Str × Str))
    (lines : List Str) : List (Str × Str) :=
  updateIndexLoop parse [] lines

/-- A concrete sentence parser used to instantiate index theorems: accepts
only the line `"g"`, mapping it to the entry `("k", "v")`. -/
def sampleParse : Str → Option (Str × Str) :=
  fun l => if l = ['g'] then some (['k'], ['v']) else none

/-- Spec-side characterization for the index claim: the server of the last
line of the batch that parses to the given key, if any. -/
def specLastParsed (parse : Str → Option (Str × Str)) (key : Str) :
    List Str → Option Str
  | [] => none
  | line :: rest =>
    match specLastParsed parse key rest with
    | some v => some v
    | none =>
      match parse line with
      | some (k, s) => if k = key then some s else none
      | none => none

/-- The nodes a PUT join is propagated to: every registry entry whose
status is not the eviction notice (iteration order fixed to list order). -/
def activeNodes : List (Str × Str) → List Str
  | [] => []
  | (node, status) :: rest =>
    if status = evictionNotice then activeNodes rest else node :: activeNodes rest

/-- Observable outcome of the `/node` handler: the registry afterwards, the
status code written (if any), how many times the request was handed to the
`ForwardRoundRobinRingRequest` collaborator, and the targets of direct
`NewRoundRobinCall` join propagation. -/
structure NodeResult where
  nodes : List (Str × Str)
  status : Option Nat
  ringForwards : Nat
  directCalls : List Str
deriving DecidableEq

/-- mesh `/node` handler (part_000), after a successful admin check.
`ForwardRoundRobinRingRequest` is modelled from the spec as the
propagation collaborator that forwards the incoming control message around
the ring; the handler invokes it once for every request with a non-empty
body, and a second time when a fresh eviction is recorded. -/
def nodeHandler (nodes : List (Str × Str)) (method address : Str) : NodeResult :=
  if address = [] then ⟨nodes, some 204, 0, []⟩
  else if method = "PUT".toList then
    if (lookupA nodes address).getD [] ≠ [] then ⟨nodes, none, 1, []⟩
    else
      let nodes2 := setA nodes address address
      ⟨nodes2, none, 1, activeNodes nodes2⟩
  else if method = "DELETE".toList then
    if (lookupA nodes address).getD [] = [] then ⟨nodes, some 404, 1, []⟩
    else if (lookupA nodes address).getD [] = evictionNotice then ⟨nodes, none, 1, []⟩
    else ⟨setA nodes address evictionNotice, none, 2, []⟩
  else ⟨nodes, none, 1, []⟩

/-! ## burst (part_001): the /run dispatcher endpoint -/

/-- Availability of the rendezvous counterparts for one `/run` request:
at which delay (if ever) a worker takes the reply channel from the shared
`code` channel, at which delay the task payload is taken, and at which
delay (with what value) the result is sent back. -/
structure ChanEnv where
  takeSubmit : Option Nat
  takeInput : Option Nat
  giveOutput : Option (Nat × Str)

/-- The environment of the busy scenario: no worker ever takes from the
shared task channel, so no counterpart ever appears. -/
def deadEnv : ChanEnv := ⟨none, none, none⟩

/-- One bounded `select` between a counterpart becoming ready and a
`time.After(budget)` timeout: returns whether the handoff happened and how
long the handler was blocked. -/
def selectUnit (budget : Nat) (ready : Option Nat) : Bool × Nat :=
  match ready with
  | some t => if t ≤ budget then (true, t) else (false, budget)
  | none => (false, budget)

/-- The 402 body written by the `/run` handler. -/
def paymentRequiredBody : Str := "Payment required with a PUT to /run.coin".toList

/-- The observable outcome of one `/run` request: response status and body,
the total time spent blocked in the three selects, whether the reply
channel was ever pushed into the shared task channel, and the session
table afterwards (the handler never writes it). -/
structure RunOutcome where
  status : Nat
  body : Str
  waited : Nat
  submitted : Bool
  sessionAfter : List (Str × Str)
deriving DecidableEq

/-- burst `/run` handler (part_001): session check, then three bounded
selects — submit the reply channel (budget `maxB`), send the payload
(budget `maxB`), await the output (budget `maxB + maxB`).  A timed-out
select merely breaks; the handler continues to the next select, and on the
final timeout writes nothing. -/
def runHandler (session : List (Str × Str)) (maxB : Nat) (apiKey input : Str)
    (env : ChanEnv) : RunOutcome :=
  if (lookupA session apiKey).isNone then
    ⟨402, paymentRequiredBody, 0, false, session⟩
  else
    let s1 := selectUnit maxB env.takeSubmit
    let s2 := selectUnit maxB env.takeInput
    let s3 :=
      match env.giveOutput with
      | some (t, o) =>
        if t ≤ maxB + maxB then (true, t, o) else (false, maxB + maxB, ([] : Str))
      | none => (false, maxB + maxB, ([] : Str))
    ⟨200, if s3.1 then s3.2.2 else [], s1.2 + s2.2 + s3.2.1, s1.1, session⟩

/-! ## burst (part_002): UDP framing and the container table -/

/-- The start sentinel of the UDP framing. -/
def messageStarted : Str := "Message has started.".toList

/-- The end sentinel of the UDP framing. -/
def messageFinished : Str := "Message has finished.".toList

/-- burst `IsMessageComplete` (part_002): the accumulated buffer matches
`"Message has started."%s"Message has finished."`. -/
def isMessageComplete (s : Str) : Bool :=
  (scanPattern1 messageStarted messageFinished s).isSome

/-- The receive loop of `acceptMessage` (part_002) over a sequence of
datagrams: append each datagram to the buffer; once the buffer is a
complete message, hand the whole buffer to the handler (recorded in the
returned list) and reset the buffer to empty.  Returns the final buffer
and the dispatched messages in order. -/
def acceptRun (buf : Str) : List Str → Str × List Str
  | [] => (buf, [])
  | d :: ds =>
    let message := buf ++ d
    if isMessageComplete message then
      let rest := acceptRun [] ds
      (rest.1, message :: rest.2)
    else
      acceptRun message ds

/-- Leading literal of the container sentences. -/
def containerPre : Str := "Burst container has key ".toList

/-- Middle literal of the running-state sentence. -/
def runningMid : Str := " and it is running ".toList

/-- Middle literal of the finished-state sentence. -/
def finishedMid : Str := " and it is finished with the following result ".toList

/-- The terminator `GetBurst` appends so the trailing `%s` hole of its
pattern is delimited. -/
def magicSuffix : Str := "DFFSSFFGGG".toList

/-- The idle encoding `GetBurst` writes back:
`englang.Printf("Burst container has key %s and it is running %s.", k, "idle")`. -/
def idleSentence (k : Str) : Str :=
  containerPre ++ k ++ runningMid ++ "idle".toList ++ ".".toList

/-- Modelled from the spec: the finished-state encoding of a container
record, `"Burst container has key " k " and it is finished with the
following result " r` (written by the box completion path, which is not
among the sources). -/
def finishedSentence (k r : Str) : Str :=
  containerPre ++ k ++ finishedMid ++ r

/-- The running encoding `StartBurst` writes:
`englang.Printf("Burst container has key %s and it is running %s.Run this.%s", k, "code", code)`. -/
def runningUpdate (k code : Str) : Str :=
  containerPre ++ k ++ runningMid ++ "code".toList ++ ".Run this.".toList ++ code

/-- burst `StartBurst` (part_002): scan the container table for a record
whose sentence parses as running with status `idle`; rewrite the first
such record to the running encoding and return its key, or return the
empty key if none is idle.  Returns the key and the table afterwards. -/
def StartBurst (code : Str) : List (Str × Str) → Str × List (Str × Str)
  | [] => ([], [])
  | (containerKey, containerContent) :: rest =>
    match scanPattern2 containerPre runningMid ".".toList containerContent with
    | some (_, status) =>
      if status = "idle".toList then
        (containerKey, (containerKey, runningUpdate containerKey code) :: rest)
      else
        let r := StartBurst code rest
        (r.1, (containerKey, containerContent) :: r.2)
    | none =>
      let r := StartBurst code rest
      (r.1, (containerKey, containerContent) :: r.2)

/-- burst `GetBurst` (part_002): look the record up; if `content ++
magicSuffix` parses against the finished pattern (terminated by
`magicSuffix`), rewrite the slot named inside the sentence to the idle
encoding and return the result, else return empty and leave the table
unchanged.  Returns the result and the table afterwards. -/
def GetBurst (container : List (Str × Str)) (key : Str) : Str × List (Str × Str) :=
  match lookupA container key with
  | some content =>
    match scanPattern2 containerPre finishedMid magicSuffix (content ++ magicSuffix) with
    | some (containerKey, result) =>
      (result, setA container containerKey (idleSentence containerKey))
    | none => ([], container)
  | none => ([], container)

/-- The poll loop of `RunBurst`: up to `fuel` calls to `GetBurst`,
stopping at the first non-empty result. -/
def pollBurst (container : List (Str × Str)) (key : Str) : Nat → Str × List (Str × Str)
  | 0 => ([], container)
  | fuel + 1 =>
    let r := GetBurst container key
    if r.1 ≠ [] then r else pollBurst r.2 key fuel

/-- The busy message of `RunBurst`. -/
def busyLiteral : Str := "The system is busy. Please reload.".toList

/-- burst `RunBurst` (part_002): start a burst; when no slot is idle,
return the busy literal in the first (container-key) component and an
empty result; otherwise poll `GetBurst` up to 15 times.  Returns
(containerKey, output, table afterwards). -/
def RunBurst (container : List (Str × Str)) (code : Str) :
    Str × Str × List (Str × Str) :=
  let s := StartBurst code container
  if s.1 = [] then (busyLiteral, [], s.2)
  else
    let p := pollBurst s.2 s.1 15
    (s.1, p.1, p.2)

/-- burst `SetupBurstLambdaEndpoint` `/run` handler (part_002): run the
burst; when a deferred key came back with an empty output, wait and try
`GetBurst` once more with that key; write the output.  Returns the body
written and the container table afterwards. -/
def lambdaRun (container : List (Str × Str)) (input : Str) : Str × List (Str × Str) :=
  let r := RunBurst container input
  if r.1 ≠ [] ∧ r.2.1 = [] then
    let g := GetBurst r.2.2 r.1
    (g.1, g.2)
  else (r.2.1, r.2.2)

/-! ## Shared lemmas about the string-matching utilities -/

theorem strStarts_self_append (p r : Str) : strStarts p (p ++ r) = true := by
  induction p with
  | nil => rfl
  | cons c p ih => simp [strStarts, ih]

theorem splitFirst_first_occurrence (c : Char) (mid k r : Str) (hk : c ∉ k) :
    splitFirst (c :: mid) (k ++ c :: (mid ++ r)) = some (k, r) := by
  induction k with
  | nil =>
    show splitFirst (c :: mid) (c :: (mid ++ r)) = some ([], r)
    have hs : strStarts (c :: mid) (c :: (mid ++ r)) = true := by
      have h := strStarts_self_append (c :: mid) r
      simpa using h
    simp [splitFirst, hs, List.drop_left]
  | cons a k2 ih =>
    have hca : ¬ c = a := fun h => hk (h ▸ List.mem_cons_self a k2)
    have hk2 : c ∉ k2 := fun h => hk (List.mem_cons_of_mem a h)
    show splitFirst (c :: mid) (a :: (k2 ++ c :: (mid ++ r))) = some (a :: k2, r)
    have hf : strStarts (c :: mid) (a :: (k2 ++ c :: (mid ++ r))) = false := by
      simp [strStarts, hca]
    simp [splitFirst, hf, ih hk2]

theorem stripSuffix_append (suf b : Str) : stripSuffix suf (b ++ suf) = some b := by
  have he : strEnds suf (b ++ suf) = true := by
    unfold strEnds
    rw [List.reverse_append]
    exact strStarts_self_append suf.reverse b.reverse
  simp only [stripSuffix, he, if_pos, List.length_append]
  rw [Nat.add_sub_cancel]
  exact congrArg some (List.take_left b suf)

theorem scanPattern1_append (pre p suf : Str) :
    scanPattern1 pre suf (pre ++ p ++ suf) = some p := by
  have h1 : pre ++ p ++ suf = pre ++ (p ++ suf) := by simp
  rw [h1]
  simp [scanPattern1, strStarts_self_append, List.drop_left, stripSuffix_append]

theorem scanPattern2_append (pre a : Str) (c : Char) (mid b suf : Str) (ha : c ∉ a) :
    scanPattern2 pre (c :: mid) suf (pre ++ a ++ (c :: mid) ++ b ++ suf) = some (a, b) := by
  have h1 : pre ++ a ++ (c :: mid) ++ b ++ suf
      = pre ++ (a ++ c :: (mid ++ (b ++ suf))) := by simp
  rw [h1]
  have h2 := splitFirst_first_occurrence c mid a (b ++ suf) ha
  simp [scanPattern2, strStarts_self_append, List.drop_left, h2, stripSuffix_append]

theorem lookupA_setA (m : List (Str × Str)) (k v key : Str) :
    lookupA (setA m k v) key = if k = key then some v else lookupA m key := by
  induction m with
  | nil => simp [setA, lookupA]
  | cons kv rest ih =>
    obtain ⟨k1, w⟩ := kv
    by_cases h1 : k1 = k
    · subst h1
      by_cases h2 : k1 = key
      · simp [setA, lookupA, h2]
      · simp [setA, lookupA, h2]
    · by_cases h2 : k1 = key
      · subst h2
        have hne : ¬ k = k1 := fun h => h1 h.symm
        simp [setA, lookupA, h1, hne, lookupA]
      · simp [setA, lookupA, h1, h2, ih]

/-! ## Claim C10 -/

theorem lettersGo_range : ∀ c ∈ lettersGo, 'A' ≤ c ∧ c ≤ 'T' := by decide

theorem getD_mem_or_eq {α : Type} (l : List α) (n : Nat) (d : α) :
    l.getD n d ∈ l ∨ l.getD n d = d := by
  rw [List.getD_eq_getElem?_getD]
  cases h : l[n]? with
  | none => simp
  | some a => exact Or.inl (by simpa using List.getElem?_mem h)

theorem keyAttempt_length (draw : Nat → Nat) (t : Nat) :
    (keyAttempt draw t).length = 64 := by
  simp [keyAttempt]

theorem keyAttempt_range (draw : Nat → Nat) (t : Nat) :
    ∀ c ∈ keyAttempt draw t, 'A' ≤ c ∧ c ≤ 'T' := by
  intro c hc
  simp only [keyAttempt, List.mem_map] at hc
  obtain ⟨i, _, hi⟩ := hc
  rw [← hi]
  rcases getD_mem_or_eq lettersGo ((draw (64 * t + i)) % 20) 'A' with h | h
  · exact lettersGo_range _ h
  · rw [h]; decide

theorem keySearch_spec (draw : Nat → Nat) (t : Nat) :
    (keySearch draw t).length = 64 ∧ ∀ c ∈ keySearch draw t, 'A' ≤ c ∧ c ≤ 'T' := by
  induction t with
  | zero => exact ⟨keyAttempt_length draw 0, keyAttempt_range draw 0⟩
  | succ t ih =>
    simp only [keySearch]
    split
    · exact ih
    · exact ⟨keyAttempt_length draw (t + 1), keyAttempt_range draw (t + 1)⟩

/-- Claim C10: every string returned by `GenerateUniqueKey` has length
exactly 64, consists only of characters in the range 'A' through 'T', and
has the character 'B' at index 4, regardless of the random draws. -/
theorem c10_generate_unique_key_shape (draw : Nat → Nat) :
    (GenerateUniqueKey draw).length = 64
    ∧ (∀ c ∈ GenerateUniqueKey draw, 'A' ≤ c ∧ c ≤ 'T')
    ∧ (GenerateUniqueKey draw).getD 4 'X' = 'B' := by
  obtain ⟨hlen, hmem⟩ := keySearch_spec draw 999
  refine ⟨?_, ?_, ?_⟩
  · simp [GenerateUniqueKey, hlen]
  · intro c hc
    rcases List.mem_or_eq_of_mem_set hc with h | h
    · exact hmem c h
    · rw [h]; decide
  · have h4 : 4 < (keySearch draw 999).length := by rw [hlen]; decide
    rw [GenerateUniqueKey, List.getD_eq_getElem?_getD, List.getElem?_set_self h4]
    rfl

theorem c10_generate_unique_key_shape_witness :
    (GenerateUniqueKey (fun _ => 0)).length = 64
    ∧ (GenerateUniqueKey (fun _ => 0)).getD 4 'X' = 'B' :=
  ⟨(c10_generate_unique_key_shape (fun _ => 0)).1,
   (c10_generate_unique_key_shape (fun _ => 0)).2.2⟩

/-! ## Claim C3 -/

/-- Claim C3: `Proxy` responds 404 when the apikey header is absent or has
no entry in the key index, responds 410 when the key's owning node is
marked evicted, and in each of these error cases performs no forward. -/
theorem c3_proxy_error_paths (index nodes : List (Str × Str)) (siteUrl url apiKey : Str) :
    (apiKey = [] → Proxy index nodes siteUrl apiKey url = ⟨some 404, none⟩)
    ∧ (lookupA index apiKey = none → Proxy index nodes siteUrl apiKey url = ⟨some 404, none⟩)
    ∧ (∀ server, apiKey ≠ [] → lookupA index apiKey = some server → server ≠ [] →
        lookupA nodes server = some evictionNotice →
        Proxy index nodes siteUrl apiKey url = ⟨some 410, none⟩) := by
  refine ⟨?_, ?_, ?_⟩
  · intro h
    simp [Proxy, h]
  · intro h
    by_cases ha : apiKey = []
    · simp [Proxy, ha]
    · simp [Proxy, ha, h]
  · intro server ha hs hne hev
    have hsyn : synonym ((lookupA nodes server).getD []) evictionNotice = true := by
      rw [hev]
      simp [synonym]
    simp [Proxy, ha, hs, hne, hsyn]

theorem c3_proxy_error_paths_witness :
    Proxy [] [] [] [] ['u'] = ⟨some 404, none⟩
    ∧ Proxy [] [] [] ['k'] ['u'] = ⟨some 404, none⟩
    ∧ Proxy [(['k'], ['s'])] [(['s'], evictionNotice)] [] ['k'] ['u'] = ⟨some 410, none⟩ :=
  ⟨(c3_proxy_error_paths [] [] [] ['u'] []).1 rfl,
   (c3_proxy_error_paths [] [] [] ['u'] ['k']).2.1 (by decide),
   (c3_proxy_error_paths [(['k'], ['s'])] [(['s'], evictionNotice)] [] ['u'] ['k']).2.2
     ['s'] (by decide) (by decide) (by decide) (by decide)⟩

/-! ## Claim C9 -/

/-- Claim C9: when the request URL does not contain the local site URL as a
substring, the prefix rewrite leaves the URL unchanged and `Proxy`
responds 404 without forwarding, even though the apikey header is present,
the key is known in the index and its owning node is not evicted. -/
theorem c9_proxy_unchanged_url_404 (index nodes : List (Str × Str))
    (siteUrl url apiKey server : Str)
    (ha : apiKey ≠ []) (hs : lookupA index apiKey = some server) (hne : server ≠ [])
    (hev : (lookupA nodes server).getD [] ≠ evictionNotice)
    (hcon : containsStr url siteUrl = false) :
    Proxy index nodes siteUrl apiKey url = ⟨some 404, none⟩ := by
  have hsite : ¬ siteUrl = [] := by
    intro h
    subst h
    cases url with
    | nil => simp [containsStr, splitFirst, strStarts] at hcon
    | cons c cs => simp [containsStr, splitFirst, strStarts] at hcon
  have hsplit : splitFirst siteUrl url = none := by
    cases h : splitFirst siteUrl url with
    | none => rfl
    | some p => rw [containsStr, h] at hcon; simp at hcon
  have hrep : ∀ server2, replaceFirst url siteUrl server2 = url := by
    intro server2
    simp [replaceFirst, hsite, hsplit]
  have hsyn : synonym ((lookupA nodes server).getD []) evictionNotice = false := by
    simp [synonym, hev]
  simp [Proxy, ha, hs, hne, hsyn, hrep]

theorem c9_proxy_unchanged_url_404_witness :
    Proxy [(['k'], ['s'])] [] ['h'] ['k'] ['u'] = ⟨some 404, none⟩ :=
  c9_proxy_unchanged_url_404 [(['k'], ['s'])] [] ['h'] ['u'] ['k'] ['s']
    (by decide) (by decide) (by decide) (by decide) (by decide)

/-! ## Claim C4 -/

theorem updateIndexLoop_lookup (parse : Str → Option (Str × Str)) (key : Str) :
    ∀ (lines : List Str) (acc : List (Str × Str)),
      lookupA (updateIndexLoop parse acc lines) key
        = match specLastParsed parse key lines with
          | some v => some v
          | none => lookupA acc key := by
  intro lines
  induction lines with
  | nil =>
    intro acc
    simp [updateIndexLoop, specLastParsed]
  | cons line rest ih =>
    intro acc
    cases hp : parse line with
    | none =>
      simp only [updateIndexLoop, hp, specLastParsed]
      rw [ih acc]
      cases hsp : specLastParsed parse key rest <;> simp
    | some ks =>
      obtain ⟨k, s⟩ := ks
      simp only [updateIndexLoop, hp, specLastParsed]
      rw [ih (setA acc k s)]
      cases hsp : specLastParsed parse key rest with
      | some v => simp
      | none =>
        simp only [lookupA_setA]
        by_cases hkk : k = key <;> simp [hkk]

/-- Claim C4: `UpdateIndex` replaces the entire local index with exactly
the entries parsed from the stream: a lookup in the new index yields the
server of the last line parsing to that key (later lines overwrite
earlier ones), an unparsable line is skipped individually, and the
previous index does not influence the result. -/
theorem c4_update_index_full_replace (parse : Str → Option (Str × Str))
    (oldIndex : List (Str × Str)) (lines : List Str) (key : Str) :
    lookupA (UpdateIndex parse oldIndex lines) key = specLastParsed parse key lines
    ∧ (∀ bad, parse bad = none →
        UpdateIndex parse oldIndex (bad :: lines) = UpdateIndex parse oldIndex lines)
    ∧ UpdateIndex parse oldIndex lines = UpdateIndex parse [] lines := by
  refine ⟨?_, ?_, rfl⟩
  · rw [UpdateIndex, updateIndexLoop_lookup]
    cases specLastParsed parse key lines <;> simp [lookupA]
  · intro bad hbad
    simp [UpdateIndex, updateIndexLoop, hbad]

theorem c4_update_index_full_replace_witness :
    lookupA (UpdateIndex sampleParse [(['o'], ['o'])] [['g']]) ['k']
      = specLastParsed sampleParse ['k'] [['g']]
    ∧ UpdateIndex sampleParse [(['o'], ['o'])] [['x'], ['g']]
      = UpdateIndex sampleParse [(['o'], ['o'])] [['g']] :=
  ⟨(c4_update_index_full_replace sampleParse [(['o'], ['o'])] [['g']] ['k']).1,
   (c4_update_index_full_replace sampleParse [(['o'], ['o'])] [['g']] ['k']).2.1
     ['x'] (by decide)⟩

/-! ## Claim C5 -/

/-- Claim C5 counterexample: a DELETE for an already-evicted address leaves
the registry unchanged, but the handler has already handed the eviction
request to the ring-propagation collaborator once (the unconditional
forward executed before the method dispatch), so propagation is triggered. -/
theorem c5_delete_evicted_counterexample :
    (nodeHandler [(['b'], ['b']), (['a'], evictionNotice)] "DELETE".toList ['a']).nodes
      = [(['b'], ['b']), (['a'], evictionNotice)]
    ∧ (nodeHandler [(['b'], ['b']), (['a'], evictionNotice)] "DELETE".toList ['a']).ringForwards
      ≠ 0 := by
  decide

/-- Claim C5 (amended): a DELETE naming an already-evicted address leaves
the node registry unchanged, writes no status, performs no direct join
propagation, and does not re-trigger the eviction propagation — the second
ring forward of the fresh-eviction path is skipped, leaving only the
single unconditional ring forward done for every `/node` request with a
non-empty body. -/
theorem c5_delete_evicted_noop (nodes : List (Str × Str)) (address : Str)
    (hne : address ≠ [])
    (hev : lookupA nodes address = some evictionNotice) :
    nodeHandler nodes "DELETE".toList address = ⟨nodes, none, 1, []⟩ := by
  have h1 : ¬ ("DELETE".toList = "PUT".toList) := by decide
  have h2 : ¬ (evictionNotice = ([] : Str)) := by decide
  simp [nodeHandler, hne, h1, h2, hev]

theorem c5_delete_evicted_noop_witness :
    nodeHandler [(['a'], evictionNotice)] "DELETE".toList ['a']
      = ⟨[(['a'], evictionNotice)], none, 1, []⟩ :=
  c5_delete_evicted_noop [(['a'], evictionNotice)] ['a'] (by decide) (by decide)

/-! ## Claim C1 -/

/-- Claim C1 counterexample: with an active burst session and no receiver
ever taking from the shared task channel, the `/run` handler's three
selects all time out — at one budget, one budget, and two budgets — so the
total blocked time is four times the runtime budget, which exceeds twice
the budget. -/
theorem c1_run_dead_counterexample :
    (runHandler [(['K'], ['x'])] 1 ['K'] ['i'] deadEnv).waited = 4
    ∧ ¬ ((runHandler [(['K'], ['x'])] 1 ['K'] ['i'] deadEnv).waited ≤ 2 * 1) := by
  decide

/-- Claim C1 (amended): for every `/run` request whose apiKey has an active
burst session, if no receiver ever takes from the shared task channel, the
handler still returns, with an empty body and no task submitted, after a
total blocked time of exactly `maxB + maxB + (maxB + maxB)` — four times
the runtime budget (each select is individually bounded, but their
timeouts add up), not at most twice the budget. -/
theorem c1_run_dead_returns (session : List (Str × Str)) (maxB : Nat)
    (apiKey input : Str) (h : (lookupA session apiKey).isSome) :
    runHandler session maxB apiKey input deadEnv
      = ⟨200, [], maxB + maxB + (maxB + maxB), false, session⟩ := by
  have h2 : ¬ (lookupA session apiKey).isNone := by
    cases hx : lookupA session apiKey with
    | none => rw [hx] at h; simp at h
    | some v => simp
  simp [runHandler, h2, deadEnv, selectUnit]

theorem c1_run_dead_returns_witness :
    runHandler [(['K'], ['x'])] 2 ['K'] ['i'] deadEnv
      = ⟨200, [], 2 + 2 + (2 + 2), false, [(['K'], ['x'])]⟩ :=
  c1_run_dead_returns [(['K'], ['x'])] 2 ['K'] ['i'] (by decide)

/-! ## Claim C7 -/

/-- Claim C7: a `/run` request whose apiKey is not a key of the session
table is answered 402 with the payment-required body; the handler enters
no select, pushes nothing into the shared task channel, and leaves the
session table unchanged. -/
theorem c7_run_payment_required (session : List (Str × Str)) (maxB : Nat)
    (apiKey input : Str) (env : ChanEnv)
    (h : lookupA session apiKey = none) :
    runHandler session maxB apiKey input env
      = ⟨402, paymentRequiredBody, 0, false, session⟩ := by
  simp [runHandler, h]

theorem c7_run_payment_required_witness :
    runHandler [(['a'], ['b'])] 3 ['z'] ['i'] deadEnv
      = ⟨402, paymentRequiredBody, 0, false, [(['a'], ['b'])]⟩ :=
  c7_run_payment_required [(['a'], ['b'])] 3 ['z'] ['i'] deadEnv (by decide)

/-! ## Claim C8 -/

/-- Claim C8, evaluated at the claim's scenario: with a valid session key
`"C1"` and no ready worker, the dispatcher `/run` handler writes an empty
body; likewise the lambda `/run` endpoint with no idle container writes an
empty body, because `RunBurst` returns the busy literal in its
container-key slot and the endpoint then consumes it as a `GetBurst` key.
The busy literal is never what is written, contradicting the claim. -/
theorem c8_busy_literal_never_written :
    (runHandler [("C1".toList, ['d'])] 1 "C1".toList ['t'] deadEnv).body = []
    ∧ lambdaRun [] ['t'] = ([], [])
    ∧ busyLiteral ≠ [] := by
  decide

/-! ## Claim C2 -/

/-- Claim C2 counterexample: two datagrams that together spell the framed
payload `"ABC"` make the receiver dispatch the entire framed buffer —
sentinels included — to the handler, not the bare payload. -/
theorem c2_framing_counterexample :
    acceptRun [] ["Message has started.AB".toList, "CMessage has finished.".toList]
      = ([], ["Message has started.ABCMessage has finished.".toList])
    ∧ "Message has started.ABCMessage has finished.".toList ≠ "ABC".toList := by
  decide

theorem acceptRun_complete_at_end (ds : List Str) :
    ∀ buf : Str,
      (∀ k, k < ds.length → isMessageComplete (buf ++ (ds.take k).flatten) = false) →
      isMessageComplete (buf ++ ds.flatten) = true →
      ds ≠ [] →
      acceptRun buf ds = ([], [buf ++ ds.flatten]) := by
  induction ds with
  | nil =>
    intro buf _ _ hne
    exact absurd rfl hne
  | cons d ds ih =>
    intro buf hmid hend _
    by_cases hds : ds = []
    · subst hds
      have hend2 : isMessageComplete (buf ++ d) = true := by
        simpa using hend
      simp [acceptRun, hend2]
    · have hstep : isMessageComplete (buf ++ d) = false := by
        have h1 : 1 < (d :: ds).length := by
          cases ds with
          | nil => exact absurd rfl hds
          | cons e es => simp
        have h := hmid 1 h1
        simpa using h
      have hrec := ih (buf ++ d)
        (by
          intro k hk
          have h := hmid (k + 1) (by simpa using hk)
          simpa [List.append_assoc] using h)
        (by simpa [List.append_assoc] using hend)
        hds
      calc acceptRun buf (d :: ds) = acceptRun (buf ++ d) ds := by
            simp [acceptRun, hstep]
        _ = ([], [(buf ++ d) ++ ds.flatten]) := hrec
        _ = ([], [buf ++ (d :: ds).flatten]) := by simp

/-- Claim C2 (amended): a sequence of datagrams whose concatenation is
exactly the framed payload, none of whose intermediate accumulations is
already a complete message, makes the receiver dispatch exactly one
message — the full framed buffer, from which the sentinel parse recovers
exactly the payload — and reset its buffer to empty; an accumulated buffer
in which the sentinel pattern is not yet complete is never dispatched. -/
theorem c2_framing_roundtrip (p : Str) (ds : List Str)
    (htot : ds.flatten = messageStarted ++ p ++ messageFinished)
    (hmid : ∀ k, k < ds.length → isMessageComplete ((ds.take k).flatten) = false) :
    acceptRun [] ds = ([], [messageStarted ++ p ++ messageFinished])
    ∧ scanPattern1 messageStarted messageFinished
        (messageStarted ++ p ++ messageFinished) = some p
    ∧ (∀ buf d, isMessageComplete (buf ++ d) = false →
        acceptRun buf [d] = (buf ++ d, [])) := by
  have hcomplete : isMessageComplete (([] : Str) ++ ds.flatten) = true := by
    rw [List.nil_append, htot]
    unfold isMessageComplete
    rw [scanPattern1_append]
    rfl
  have hne : ds ≠ [] := by
    intro h
    subst h
    have hlen := congrArg List.length htot
    simp [messageStarted, messageFinished] at hlen
  refine ⟨?_, scanPattern1_append messageStarted p messageFinished, ?_⟩
  · have h := acceptRun_complete_at_end ds []
      (by
        intro k hk
        have := hmid k hk
        simpa using this)
      hcomplete hne
    rw [List.nil_append] at h
    rw [h, htot]
  · intro buf d h
    simp [acceptRun, h]

theorem c2_framing_roundtrip_witness :
    acceptRun [] ["Message has started.Q".toList, "Message has finished.".toList]
      = ([], [messageStarted ++ ['Q'] ++ messageFinished])
    ∧ scanPattern1 messageStarted messageFinished
        (messageStarted ++ ['Q'] ++ messageFinished) = some ['Q'] :=
  ⟨(c2_framing_roundtrip ['Q']
      ["Message has started.Q".toList, "Message has finished.".toList]
      (by decide) (by decide)).1,
   (c2_framing_roundtrip ['Q']
      ["Message has started.Q".toList, "Message has finished.".toList]
      (by decide) (by decide)).2.1⟩

/-! ## Claim C6 -/

/-- Claim C6: `GetBurst` on a slot whose record is the finished encoding
for that key returns the result and rewrites the record to the idle
encoding, after which `StartBurst` selects that same slot for the next
code; on a record that does not match the finished encoding, `GetBurst`
returns empty and leaves the table unchanged.  Container keys are produced
by `GenerateUniqueKey`, hence contain no space, which is what the
hypothesis records. -/
theorem c6_container_slot_reuse (k r code : Str) (rest : List (Str × Str))
    (hk : ' ' ∉ k) :
    GetBurst ((k, finishedSentence k r) :: rest) k = (r, (k, idleSentence k) :: rest)
    ∧ StartBurst code ((k, idleSentence k) :: rest)
      = (k, (k, runningUpdate k code) :: rest)
    ∧ (∀ container content, lookupA container k = some content →
        scanPattern2 containerPre finishedMid magicSuffix (content ++ magicSuffix) = none →
        GetBurst container k = ([], container)) := by
  have hmidF : finishedMid
      = ' ' :: "and it is finished with the following result ".toList := by decide
  have hmidR : runningMid = ' ' :: "and it is running ".toList := by decide
  have hfin : scanPattern2 containerPre finishedMid magicSuffix
      (finishedSentence k r ++ magicSuffix) = some (k, r) := by
    have h := scanPattern2_append containerPre k ' '
      "and it is finished with the following result ".toList r magicSuffix hk
    rw [finishedSentence, hmidF]
    exact h
  have hidle : scanPattern2 containerPre runningMid ".".toList (idleSentence k)
      = some (k, "idle".toList) := by
    have h := scanPattern2_append containerPre k ' '
      "and it is running ".toList "idle".toList ".".toList hk
    rw [idleSentence, hmidR]
    exact h
  refine ⟨?_, ?_, ?_⟩
  · simp [GetBurst, lookupA, hfin, setA]
  · simp only [StartBurst]
    rw [hidle]
    simp
  · intro container content hl hscan
    simp [GetBurst, hl, hscan]

theorem c6_container_slot_reuse_witness :
    GetBurst [(['K'], finishedSentence ['K'] ['R'])] ['K']
      = (['R'], [(['K'], idleSentence ['K'])])
    ∧ StartBurst ['C'] [(['K'], idleSentence ['K'])]
      = (['K'], [(['K'], runningUpdate ['K'] ['C'])]) :=
  ⟨(c6_container_slot_reuse ['K'] ['R'] ['C'] [] (by decide)).1,
   (c6_container_slot_reuse ['K'] ['R'] ['C'] [] (by decide)).2.1⟩

end WellWish
